import Mathlib

/-!
# Verification of the WiFi Device Identifier core

A shallow embedding, in Lean 4, of the core components of the
`wifi-device-identifier` repository:

* `src/scraper/price_scraper.py` — `TokopediaScraper` (the Price Sampler /
  Market Estimator): query normalisation, statistical cleaning of a raw
  price sample, the median-based market price, confidence labels, the
  in-process cache and the rate limiter;
* `src/app/user_agent.py` — `UserAgentParser` (the Signature Extractor):
  platform dispatch, the Android/iOS/Windows/macOS regex cascade, browser
  detection and candidate-token derivation;
* `src/database/device_db.py` — `DeviceDatabase` (the Catalog Matcher):
  catalog loading under three case-variant keys and `find_device`.

Modelling conventions:

* Python `str` values are modelled as `List Char`.  Python's `str.upper`,
  `str.lower`, `\w` and the case-insensitive regex flags are modelled
  character-wise over ASCII (`Char.toUpper`/`Char.toLower`); Python's full
  Unicode casing tables differ on exotic code points, which do not occur in
  the catalogs and identification strings this program handles.
* Python `int` prices are modelled as `Nat` (prices are non-negative and the
  scraper filters them into `[500_000, 50_000_000]`).
* `statistics.median` computes `(s[n//2-1] + s[n//2]) / 2` (true division)
  for even `n`; both halves are at most `100_000_000 < 2^53`, so the float
  arithmetic in `round(median_price / 1000) * 1000` is exact enough that the
  result equals exact rational round-half-to-even to a multiple of 1000,
  which is what `roundThousandHalf2` computes (on twice the median, keeping
  everything in `Nat`).
* `int(total * 0.15)` agrees with `floor(3 * total / 20)` for every sample
  size this program can see (the float product errs by well under the
  distance to the next integer boundary), so the cut counts are modelled as
  `3 * total / 20` in `Nat`.
* Regex searches are embedded as explicit left-to-right scans with the same
  backtracking order as CPython's `re` (leftmost match; greedy `\s*` /
  lazy `+?` with the engine's preference order).  `.` is modelled as "any
  character" (CPython excludes `'\n'`; the identification strings handled
  here are single-line).
* Wall-clock time is a `Nat` parameter (seconds); one timestamp is used per
  call to `get_market_price` where CPython calls `datetime.now()` several
  times a few microseconds apart.  The network fetch is an oracle
  `List Char → List Nat` from the built search URL to the extracted raw
  prices, and the scraper state carries a fetch counter so that "issues
  exactly one external fetch" is statable.
-/

namespace WifiDevice

/-- `String` literal to the `List Char` model of Python strings. -/
def strA (s : String) : List Char := s.data

/-- Python's whitespace class `\s` (ASCII part): space, `\t`, `\n`, `\r`,
`\x0b` (vertical tab), `\x0c` (form feed). -/
def pyIsSpace (c : Char) : Bool :=
  c = ' ' || c = '\t' || c = '\n' || c = '\r' || c = '\x0b' || c = '\x0c'

/-- Leading-whitespace removal (`str.lstrip`, and the `\s*` steps). -/
def dropLeadWs (l : List Char) : List Char := l.dropWhile pyIsSpace

/-- Trailing-whitespace removal (`str.rstrip`). -/
def dropTrailWs (l : List Char) : List Char :=
  (l.reverse.dropWhile pyIsSpace).reverse

/-- Python `str.strip()`. -/
def pyStrip (l : List Char) : List Char := dropTrailWs (dropLeadWs l)

/-- Python `str.lower()` (ASCII model). -/
def lcStr (l : List Char) : List Char := l.map Char.toLower

/-- Python `str.upper()` (ASCII model). -/
def ucStr (l : List Char) : List Char := l.map Char.toUpper

/-- ASCII letter or digit, the class `[A-Za-z0-9]`. -/
def isAsciiAlnum (c : Char) : Bool :=
  (('A' ≤ c && c ≤ 'Z') || ('a' ≤ c && c ≤ 'z') || ('0' ≤ c && c ≤ '9'))

/-- The class `[\d.]` used by the version patterns. -/
def isDigitDot (c : Char) : Bool := c.isDigit || c = '.'

/-- The class `[\d_]` used by the iOS/macOS version patterns. -/
def isDigitUnderscore (c : Char) : Bool := c.isDigit || c = '_'

/-- Python `\w` (ASCII model): letters, digits, underscore. -/
def isWordChar (c : Char) : Bool := isAsciiAlnum c || c = '_'

/-- Substring test (`pat in s` for Python strings). -/
def containsSub (s pat : List Char) : Bool :=
  pat.isPrefixOf s ||
    match s with
    | [] => false
    | _ :: t => containsSub t pat

/-- Case-insensitive literal match at the head of `s`: returns the matched
slice of `s` (original case preserved, as `re` match groups do) and the
remainder.  Models a case-insensitive literal regex fragment. -/
def ciSplit : List Char → List Char → Option (List Char × List Char)
  | s, [] => some ([], s)
  | [], _ :: _ => none
  | c :: s, p :: ps =>
      if c.toLower = p.toLower then
        (ciSplit s ps).map (fun m => (c :: m.1, m.2))
      else
        none

/-- `re.search` position loop: try the matcher at every start position, left
to right (leftmost match wins). -/
def scanFor {α : Type} (f : List Char → Option α) : List Char → Option α
  | [] => f []
  | c :: rest =>
      match f (c :: rest) with
      | some r => some r
      | none => scanFor f rest

/-- Rightmost-first position loop, for a greedy `.*` before the fragment
(the engine consumes maximally, then backtracks leftwards). -/
def scanRev {α : Type} (f : List Char → Option α) : List Char → Option α
  | [] => f []
  | c :: rest =>
      match scanRev f rest with
      | some r => some r
      | none => f (c :: rest)

/-! ## Market Estimator (`TokopediaScraper`, statistics side) -/

/-- `MarketPrice` dataclass of `price_scraper.py` (the `MarketEstimate` of
the spec).  `scraped_at` is the timestamp in seconds. -/
structure MarketPrice where
  market_price : Nat
  min_price : Nat
  max_price : Nat
  sample_count : Nat
  raw_count : Nat
  confidence : List Char
  search_url : List Char
  scraped_at : Nat
deriving DecidableEq, Repr

/-- Python `sorted` on an integer list. -/
def pySorted (l : List Nat) : List Nat := List.insertionSort (· ≤ ·) l

/-- Python `min(list)` (callers guarantee non-emptiness; `0` on `[]`). -/
def pyListMin : List Nat → Nat
  | [] => 0
  | x :: xs => xs.foldl Nat.min x

/-- Python `max(list)` (callers guarantee non-emptiness; `0` on `[]`). -/
def pyListMax : List Nat → Nat
  | [] => 0
  | x :: xs => xs.foldl Nat.max x

/-- `TokopediaScraper._clean_prices`: below 3 samples return the list
unchanged; otherwise sort ascending, cut `int(total*0.15)` from each end
(forced to at least 1 when `total >= 6`), slicing `[cut_bottom:]` when
`cut_top == 0` and `[cut_bottom:-cut_top]` otherwise. -/
def cleanPrices (prices : List Nat) : List Nat :=
  if prices.length < 3 then prices
  else
    let sorted_prices := pySorted prices
    let total := sorted_prices.length
    let cut0 := 3 * total / 20
    let cut_bottom := if 6 ≤ total then max 1 cut0 else cut0
    let cut_top := if 6 ≤ total then max 1 cut0 else cut0
    if cut_top = 0 then sorted_prices.drop cut_bottom
    else (sorted_prices.drop cut_bottom).take (total - cut_top - cut_bottom)

/-- The caller-side fallback in `get_market_price` (STEP 5): if cleaning
left fewer than `MIN_SAMPLES = 5` prices, use the raw list unchanged. -/
def cleanedSample (rawPrices : List Nat) : List Nat :=
  let clean := cleanPrices rawPrices
  if clean.length < 5 then rawPrices else clean

/-- Twice the `statistics.median` of the list (kept doubled so the value
stays in `Nat`): `2 * s[n//2]` for odd `n`, `s[n//2-1] + s[n//2]` for even
`n` of the sorted list. -/
def median2 (l : List Nat) : Nat :=
  let s := pySorted l
  let n := s.length
  if n % 2 = 1 then 2 * s.getD (n / 2) 0
  else s.getD (n / 2 - 1) 0 + s.getD (n / 2) 0

/-- `round(median / 1000) * 1000` on `median = m2 / 2`, i.e. exact
round-half-to-even of `m2 / 2000`, scaled back by 1000. -/
def roundThousandHalf2 (m2 : Nat) : Nat :=
  let q := m2 / 2000
  let r := m2 % 2000
  if r < 1000 then 1000 * q
  else if 1000 < r then 1000 * (q + 1)
  else if q % 2 = 0 then 1000 * q else 1000 * (q + 1)

/-- `TokopediaScraper._calculate_market_price`: `0` on an empty list, else
the median rounded to the nearest multiple of 1000. -/
def calculateMarketPrice (prices : List Nat) : Nat :=
  if prices = [] then 0
  else roundThousandHalf2 (median2 prices)

/-- `TokopediaScraper._determine_confidence(raw_count, clean_count)`:
`high` at 10+ clean samples, `medium` at 5–9, `low` below 5.  The first
argument is ignored by the source, exactly as here. -/
def determineConfidence (_rawCount cleanCount : Nat) : List Char :=
  if 10 ≤ cleanCount then strA "high"
  else if 5 ≤ cleanCount then strA "medium"
  else strA "low"

/-- STEPs 5–8 of `get_market_price`: everything after the fetch.  Given the
raw extracted prices, the search URL and the current time, produce the
`MarketPrice` — or `None` when the fetch yielded nothing. -/
def getMarketPriceCore (rawPrices : List Nat) (url : List Char) (now : Nat) :
    Option MarketPrice :=
  if rawPrices = [] then none
  else
    let clean := cleanedSample rawPrices
    some
      { market_price := calculateMarketPrice clean
        min_price := pyListMin clean
        max_price := pyListMax clean
        sample_count := clean.length
        raw_count := rawPrices.length
        confidence := determineConfidence rawPrices.length clean.length
        search_url := url
        scraped_at := now }

/-! ### Support lemmas for the estimator -/

theorem foldl_min_le_init (xs : List Nat) : ∀ a, xs.foldl Nat.min a ≤ a := by
  induction xs with
  | nil => intro a; simp
  | cons c t ih =>
    intro a
    calc t.foldl Nat.min (Nat.min a c) ≤ Nat.min a c := ih _
    _ ≤ a := Nat.min_le_left _ _

theorem foldl_min_le_of_mem {x : Nat} {xs : List Nat} (hx : x ∈ xs) :
    ∀ a, xs.foldl Nat.min a ≤ x := by
  induction xs with
  | nil => cases hx
  | cons c t ih =>
    intro a
    rcases List.mem_cons.mp hx with rfl | hmem
    · calc t.foldl Nat.min (Nat.min a x) ≤ Nat.min a x := foldl_min_le_init _ _
      _ ≤ x := Nat.min_le_right _ _
    · exact ih hmem _

theorem init_le_foldl_max (xs : List Nat) : ∀ a, a ≤ xs.foldl Nat.max a := by
  induction xs with
  | nil => intro a; simp
  | cons c t ih =>
    intro a
    calc a ≤ Nat.max a c := Nat.le_max_left _ _
    _ ≤ t.foldl Nat.max (Nat.max a c) := ih _

theorem mem_le_foldl_max {x : Nat} {xs : List Nat} (hx : x ∈ xs) :
    ∀ a, x ≤ xs.foldl Nat.max a := by
  induction xs with
  | nil => cases hx
  | cons c t ih =>
    intro a
    rcases List.mem_cons.mp hx with rfl | hmem
    · calc x ≤ Nat.max a x := Nat.le_max_right _ _
      _ ≤ t.foldl Nat.max (Nat.max a x) := init_le_foldl_max _ _
    · exact ih hmem _

theorem pyListMin_le_of_mem {x : Nat} {l : List Nat} (hx : x ∈ l) :
    pyListMin l ≤ x := by
  cases l with
  | nil => cases hx
  | cons y ys =>
    rcases List.mem_cons.mp hx with rfl | hmem
    · exact foldl_min_le_init _ _
    · exact foldl_min_le_of_mem hmem _

theorem le_pyListMax_of_mem {x : Nat} {l : List Nat} (hx : x ∈ l) :
    x ≤ pyListMax l := by
  cases l with
  | nil => cases hx
  | cons y ys =>
    rcases List.mem_cons.mp hx with rfl | hmem
    · exact init_le_foldl_max _ _
    · exact mem_le_foldl_max hmem _

theorem pySorted_perm (l : List Nat) : List.Perm (pySorted l) l :=
  List.perm_insertionSort _ l

theorem length_pySorted (l : List Nat) : (pySorted l).length = l.length :=
  List.length_insertionSort _ l

theorem sorted_pySorted (l : List Nat) : List.Sorted (· ≤ ·) (pySorted l) :=
  List.sorted_insertionSort _ l

theorem mem_cleanPrices {x : Nat} {l : List Nat} (hx : x ∈ cleanPrices l) :
    x ∈ l := by
  unfold cleanPrices at hx
  dsimp only at hx
  split at hx
  · exact hx
  · split at hx <;> split at hx <;>
      first
        | exact (pySorted_perm l).mem_iff.mp (List.mem_of_mem_drop hx)
        | exact (pySorted_perm l).mem_iff.mp
            (List.mem_of_mem_drop (List.mem_of_mem_take hx))

theorem mem_cleanedSample {x : Nat} {l : List Nat} (hx : x ∈ cleanedSample l) :
    x ∈ l := by
  unfold cleanedSample at hx
  dsimp only at hx
  split at hx
  · exact hx
  · exact mem_cleanPrices hx

theorem length_cleanPrices_le (l : List Nat) :
    (cleanPrices l).length ≤ l.length := by
  unfold cleanPrices
  dsimp only
  split
  · exact Nat.le_refl _
  · split <;> split <;>
      · simp only [List.length_take, List.length_drop, length_pySorted]
        omega

theorem length_cleanedSample_le (l : List Nat) :
    (cleanedSample l).length ≤ l.length := by
  unfold cleanedSample
  dsimp only
  split
  · exact Nat.le_refl _
  · exact length_cleanPrices_le l

theorem cleanedSample_ne_nil {l : List Nat} (h : l ≠ []) :
    cleanedSample l ≠ [] := by
  unfold cleanedSample
  dsimp only
  split
  · exact h
  · intro hc
    rename_i hlen
    rw [hc] at hlen
    exact hlen (by simp)

/-- The doubled median is the sum of two members of the list, the smaller
first (for odd length, the middle element twice). -/
theorem median2_eq_add {l : List Nat} (h : l ≠ []) :
    ∃ a b, a ∈ l ∧ b ∈ l ∧ a ≤ b ∧ median2 l = a + b := by
  have hn : 0 < (pySorted l).length := by
    rw [length_pySorted]
    exact List.length_pos.mpr h
  unfold median2
  dsimp only
  split
  · -- odd length: the middle element twice
    refine ⟨(pySorted l).getD ((pySorted l).length / 2) 0,
      (pySorted l).getD ((pySorted l).length / 2) 0, ?_, ?_, Nat.le_refl _, by ring⟩
    all_goals
      rw [List.getD_eq_getElem?_getD, List.getElem?_eq_getElem (by omega), Option.getD_some]
      exact (pySorted_perm l).mem_iff.mp (List.getElem_mem _)
  · -- even length: the two middle elements
    rename_i hodd
    have h2 : 2 ≤ (pySorted l).length := by omega
    have hj : (pySorted l).length / 2 < (pySorted l).length := by omega
    have hi : (pySorted l).length / 2 - 1 < (pySorted l).length := by omega
    refine ⟨(pySorted l).getD ((pySorted l).length / 2 - 1) 0,
      (pySorted l).getD ((pySorted l).length / 2) 0, ?_, ?_, ?_, rfl⟩
    · rw [List.getD_eq_getElem?_getD, List.getElem?_eq_getElem hi, Option.getD_some]
      exact (pySorted_perm l).mem_iff.mp (List.getElem_mem _)
    · rw [List.getD_eq_getElem?_getD, List.getElem?_eq_getElem hj, Option.getD_some]
      exact (pySorted_perm l).mem_iff.mp (List.getElem_mem _)
    · rw [List.getD_eq_getElem?_getD, List.getElem?_eq_getElem hi, Option.getD_some,
        List.getD_eq_getElem?_getD, List.getElem?_eq_getElem hj, Option.getD_some]
      have hij : (pySorted l).length / 2 - 1 ≤ (pySorted l).length / 2 := by omega
      have hrel := (sorted_pySorted l).rel_get_of_le
        (a := ⟨_, hi⟩) (b := ⟨_, hj⟩) (by simp only [Fin.mk_le_mk]; exact hij)
      simpa using hrel

/-- Rounding to the nearest multiple of 1000 moves the (doubled) value by at
most 1000, i.e. the market price is within 500 of the median. -/
theorem roundThousandHalf2_bounds (m2 : Nat) :
    m2 ≤ 2 * roundThousandHalf2 m2 + 1000 ∧ 2 * roundThousandHalf2 m2 ≤ m2 + 1000 := by
  unfold roundThousandHalf2
  dsimp only
  have hdm := Nat.div_add_mod m2 2000
  have hlt : m2 % 2000 < 2000 := Nat.mod_lt _ (by omega)
  split
  · omega
  · split
    · omega
    · split <;> omega

/-- When both middle values are multiples of 1000, rounding stays inside
`[a, b]`. -/
theorem roundThousandHalf2_mem {a b : Nat} (hab : a ≤ b)
    (ha : 1000 ∣ a) (hb : 1000 ∣ b) :
    a ≤ roundThousandHalf2 (a + b) ∧ roundThousandHalf2 (a + b) ≤ b := by
  obtain ⟨x, rfl⟩ := ha
  obtain ⟨y, rfl⟩ := hb
  unfold roundThousandHalf2
  dsimp only
  have hdm := Nat.div_add_mod (1000 * x + 1000 * y) 2000
  have hlt : (1000 * x + 1000 * y) % 2000 < 2000 := Nat.mod_lt _ (by omega)
  have hmod : (1000 * x + 1000 * y) % 2000 = 1000 * ((x + y) % 2) := by
    conv_lhs => rw [show 1000 * x + 1000 * y = 1000 * (x + y) by ring]
    rw [show (2000 : Nat) = 1000 * 2 by norm_num, Nat.mul_mod_mul_left]
  have h2 : (x + y) % 2 < 2 := Nat.mod_lt _ (by omega)
  split
  · omega
  · split
    · omega
    · split <;> omega

/-! ### C1: estimator invariant -/

/-- C1 (amended).  The `MarketPrice` actually produced when the raw sample
is non-empty, with its provable bounds.  The strict claim `minPrice ≤ centralPrice ≤
maxPrice` holds when the cleaned prices are multiples of 1000; in general
the rounding step keeps `centralPrice` only within 500 of the bounds. -/
theorem market_estimate_bounds (raw : List Nat) (url : List Char) (now : Nat)
    (hne : raw ≠ []) :
    ∃ est, getMarketPriceCore raw url now = some est ∧
      est.sample_count ≤ est.raw_count ∧
      est.min_price ≤ est.market_price + 500 ∧
      est.market_price ≤ est.max_price + 500 ∧
      ((∀ p ∈ raw, 1000 ∣ p) →
        est.min_price ≤ est.market_price ∧ est.market_price ≤ est.max_price) := by
  have hclean : cleanedSample raw ≠ [] := cleanedSample_ne_nil hne
  obtain ⟨a, b, ha, hb, hab, hmedian⟩ := median2_eq_add hclean
  have hmin_a : pyListMin (cleanedSample raw) ≤ a := pyListMin_le_of_mem ha
  have hmin_b : pyListMin (cleanedSample raw) ≤ b := pyListMin_le_of_mem hb
  have hmax_a : a ≤ pyListMax (cleanedSample raw) := le_pyListMax_of_mem ha
  have hmax_b : b ≤ pyListMax (cleanedSample raw) := le_pyListMax_of_mem hb
  have hcalc : calculateMarketPrice (cleanedSample raw) =
      roundThousandHalf2 (median2 (cleanedSample raw)) := by
    unfold calculateMarketPrice
    rw [if_neg hclean]
  have hround := roundThousandHalf2_bounds (median2 (cleanedSample raw))
  refine ⟨_, by unfold getMarketPriceCore; rw [if_neg hne], ?_, ?_, ?_, ?_⟩
  · exact length_cleanedSample_le raw
  · simp only [hcalc, hmedian] at *
    omega
  · simp only [hcalc, hmedian] at *
    omega
  · intro hdvd
    have hdvd_a : 1000 ∣ a := hdvd a (mem_cleanedSample ha)
    have hdvd_b : 1000 ∣ b := hdvd b (mem_cleanedSample hb)
    have hmem := roundThousandHalf2_mem hab hdvd_a hdvd_b
    simp only [hcalc, hmedian] at *
    omega

/-- Witness: on the worked sample of the spec all prices are multiples of
1000 and the full invariant holds. -/
theorem market_estimate_bounds_witness :
    ∃ est, getMarketPriceCore
        [4500000, 8400000, 8500000, 8500000, 8600000, 8600000, 8700000, 11000000]
        [] 0 = some est ∧
      est.sample_count ≤ est.raw_count ∧
      est.min_price ≤ est.market_price + 500 ∧
      est.market_price ≤ est.max_price + 500 ∧
      ((∀ p ∈ [4500000, 8400000, 8500000, 8500000, 8600000, 8600000, 8700000,
          11000000], (1000 : Nat) ∣ p) →
        est.min_price ≤ est.market_price ∧ est.market_price ≤ est.max_price) :=
  market_estimate_bounds _ [] 0 (by decide)

/-- Counterexample to C1 as stated: the raw sample `[500999]` (one price,
inside the scraper's plausible band) yields `centralPrice = 501000 >
500999 = maxPrice`, because the median is rounded to the nearest multiple
of 1000 without clamping. -/
theorem market_estimate_bounds_counterexample :
    getMarketPriceCore [500999] [] 0 =
      some ⟨501000, 500999, 500999, 1, 1, strA "low", [], 0⟩ ∧
    ¬ (501000 : Nat) ≤ 500999 := by
  constructor
  · decide
  · decide

/-! ### C5: confidence labels -/

/-- C5.  The confidence label depends only on the cleaned-sample count: `high`
iff it is at least 10, `medium` iff it is in `[5, 10)`, `low` iff below 5;
the raw count argument is ignored. -/
theorem confidence_characterisation (r₁ r₂ c : Nat) :
    determineConfidence r₁ c = determineConfidence r₂ c ∧
    (determineConfidence r₁ c = strA "high" ↔ 10 ≤ c) ∧
    (determineConfidence r₁ c = strA "medium" ↔ 5 ≤ c ∧ c < 10) ∧
    (determineConfidence r₁ c = strA "low" ↔ c < 5) := by
  have hval : ∀ r : Nat, determineConfidence r c =
      (if 10 ≤ c then strA "high" else if 5 ≤ c then strA "medium" else strA "low") :=
    fun _ => rfl
  rcases Nat.lt_or_ge c 5 with h5 | h5
  · have hc : ∀ r : Nat, determineConfidence r c = strA "low" := by
      intro r
      rw [hval, if_neg (by omega), if_neg (by omega)]
    simp only [hc]
    exact ⟨trivial, ⟨fun h => absurd h (by decide), fun h => absurd h (by omega)⟩,
      ⟨fun h => absurd h (by decide), fun h => absurd h.1 (by omega)⟩,
      ⟨fun _ => h5, fun _ => trivial⟩⟩
  · rcases Nat.lt_or_ge c 10 with h10 | h10
    · have hc : ∀ r : Nat, determineConfidence r c = strA "medium" := by
        intro r
        rw [hval, if_neg (by omega), if_pos (by omega)]
      simp only [hc]
      exact ⟨trivial, ⟨fun h => absurd h (by decide), fun h => absurd h (by omega)⟩,
        ⟨fun _ => ⟨h5, h10⟩, fun _ => trivial⟩,
        ⟨fun h => absurd h (by decide), fun h => absurd h (by omega)⟩⟩
    · have hc : ∀ r : Nat, determineConfidence r c = strA "high" := by
        intro r
        rw [hval, if_pos (by omega)]
      simp only [hc]
      exact ⟨trivial, ⟨fun _ => h10, fun _ => trivial⟩,
        ⟨fun h => absurd h (by decide), fun h => absurd h.2 (by omega)⟩,
        ⟨fun h => absurd h (by decide), fun h => absurd h (by omega)⟩⟩

/-! ### C2: the cleaning algorithm -/

/-- The trimmed sequence exactly as the spec words it (§4.4): sort
ascending, `cutBottom = cutTop = floor(n * 0.15)`, both forced to at least
1 when `n ≥ 6`, then remove that many elements from each end. -/
def specTrimmed (raw : List Nat) : List Nat :=
  let s := pySorted raw
  let n := raw.length
  let cut0 := 3 * n / 20
  let cutBottom := if 6 ≤ n then max 1 cut0 else cut0
  let cutTop := if 6 ≤ n then max 1 cut0 else cut0
  (s.drop cutBottom).take (n - cutTop - cutBottom)

/-- The cleaned sample as the claim words it: the trimmed sequence, or the
full raw *sorted* sample when trimming would leave fewer than 5 elements. -/
def specCleanedSample (raw : List Nat) : List Nat :=
  if (specTrimmed raw).length < 5 then pySorted raw else specTrimmed raw

/-- For at least 3 samples, `_clean_prices` computes exactly the spec's
trimmed sequence (the `cut_top == 0` slicing special case coincides with
taking everything that remains). -/
theorem cleanPrices_eq_specTrimmed {raw : List Nat} (h3 : 3 ≤ raw.length) :
    cleanPrices raw = specTrimmed raw := by
  unfold cleanPrices specTrimmed
  dsimp only
  rw [if_neg (by omega), length_pySorted]
  split <;> split
  · rw [List.take_of_length_le]
    rw [List.length_drop, length_pySorted]
    omega
  · rfl
  · rw [List.take_of_length_le]
    rw [List.length_drop, length_pySorted]
    omega
  · rfl

/-- Below 3 samples `_clean_prices` returns the raw list unchanged, and the
spec's cut counts are both 0, so the trimmed sequence is the whole sorted
list. -/
theorem specTrimmed_of_small {raw : List Nat} (h3 : raw.length < 3) :
    specTrimmed raw = pySorted raw := by
  unfold specTrimmed
  dsimp only
  rw [if_neg (by omega)]
  have hc : 3 * raw.length / 20 = 0 := by omega
  rw [hc, List.drop_zero, Nat.sub_zero, Nat.sub_zero, ← length_pySorted,
    List.take_length]

/-- Either the trimmed result is kept by both the code and the spec (when
it has at least 5 elements), or both fall back to the full sample — the
code to the raw list in arrival order, the spec wording to the sorted
list. -/
theorem cleanedSample_cases (raw : List Nat) :
    (cleanedSample raw = specTrimmed raw ∧ 5 ≤ (specTrimmed raw).length) ∨
    (cleanedSample raw = raw ∧ (specTrimmed raw).length < 5) := by
  rcases Nat.lt_or_ge raw.length 3 with h3 | h3
  · right
    have hsmall : (specTrimmed raw).length < 5 := by
      rw [specTrimmed_of_small h3, length_pySorted]; omega
    refine ⟨?_, hsmall⟩
    unfold cleanedSample
    dsimp only
    have hcp : cleanPrices raw = raw := by
      unfold cleanPrices; rw [if_pos h3]
    rw [hcp, if_pos (by omega)]
  · have heq := cleanPrices_eq_specTrimmed h3
    rcases Nat.lt_or_ge (specTrimmed raw).length 5 with h5 | h5
    · right
      refine ⟨?_, h5⟩
      unfold cleanedSample
      dsimp only
      rw [heq, if_pos h5]
    · left
      refine ⟨?_, h5⟩
      unfold cleanedSample
      dsimp only
      rw [heq, if_neg (by omega)]

/-- C2 (amended).  The code's cleaning step (including the caller-side
`MIN_SAMPLES` fallback) produces a permutation of the sequence described by
the spec, and exactly that sequence whenever the trimmed result has at
least 5 elements (the two differ only in that the fallback keeps the raw
arrival order instead of sorting); on the spec's worked example the cleaned
sample and the rounded median are exactly as claimed. -/
theorem cleaning_algorithm_amended :
    (∀ raw : List Nat,
      List.Perm (cleanedSample raw) (specCleanedSample raw) ∧
      (5 ≤ (specTrimmed raw).length → cleanedSample raw = specCleanedSample raw)) ∧
    cleanedSample
        [4500000, 8400000, 8500000, 8500000, 8600000, 8600000, 8700000, 11000000] =
      [8400000, 8500000, 8500000, 8600000, 8600000, 8700000] ∧
    calculateMarketPrice
        (cleanedSample
          [4500000, 8400000, 8500000, 8500000, 8600000, 8600000, 8700000, 11000000]) =
      8550000 := by
  refine ⟨fun raw => ?_, by decide, by decide⟩
  rcases cleanedSample_cases raw with ⟨heq, h5⟩ | ⟨heq, h5⟩
  · have hspec : specCleanedSample raw = specTrimmed raw := by
      unfold specCleanedSample
      rw [if_neg (by omega)]
    constructor
    · rw [heq, hspec]
    · intro _
      rw [heq, hspec]
  · have hspec : specCleanedSample raw = pySorted raw := by
      unfold specCleanedSample
      rw [if_pos h5]
    constructor
    · rw [heq, hspec]
      exact (pySorted_perm raw).symm
    · intro hge
      omega

/-- Witness: on the worked example the trimmed result has 6 ≥ 5 elements,
so code and spec wording agree exactly. -/
theorem cleaning_algorithm_amended_witness :
    cleanedSample
        [4500000, 8400000, 8500000, 8500000, 8600000, 8600000, 8700000, 11000000] =
      specCleanedSample
        [4500000, 8400000, 8500000, 8500000, 8600000, 8600000, 8700000, 11000000] :=
  (cleaning_algorithm_amended.1 _).2 (by decide)

/-- Counterexample to C2 as stated: when the sample is too small to trim,
the code returns the raw list *unsorted* (`_clean_prices` short-circuits
below 3 samples and the `MIN_SAMPLES` fallback reuses `raw_prices`),
whereas the claim says the fallback uses the full raw *sorted* sample. -/
theorem cleaning_algorithm_counterexample :
    cleanedSample [8600000, 8500000] = [8600000, 8500000] ∧
    specCleanedSample [8600000, 8500000] = [8500000, 8600000] ∧
    cleanedSample [8600000, 8500000] ≠ specCleanedSample [8600000, 8500000] := by
  refine ⟨by decide, by decide, by decide⟩

/-! ## Price Sampler pipeline (`get_market_price` with cache and
rate limiter) -/

/-- Python `str.split()` (split on whitespace runs, dropping empties). -/
def splitWsAux : List Char → List Char → List (List Char)
  | [], acc => if acc = [] then [] else [acc.reverse]
  | c :: rest, acc =>
      if pyIsSpace c then
        if acc = [] then splitWsAux rest []
        else acc.reverse :: splitWsAux rest []
      else splitWsAux rest (c :: acc)

def splitWs (l : List Char) : List (List Char) := splitWsAux l []

/-- `TokopediaScraper._normalize_query`: drop characters outside `[\w\s]`,
lowercase, collapse whitespace runs to single spaces
(`' '.join(cleaned.lower().split())`). -/
def normalizeQuery (q : List Char) : List Char :=
  let cleaned := q.filter (fun c => isWordChar c || pyIsSpace c)
  List.intercalate [' '] (splitWs (lcStr cleaned))

/-- `urllib.parse.quote_plus` restricted to the alphabet a normalized query
can contain (`[a-z0-9_ ]`): spaces become `+`, everything else is safe. -/
def quotePlus (q : List Char) : List Char :=
  q.map (fun c => if c = ' ' then '+' else c)

/-- `TokopediaScraper._build_smart_url`: the fixed Tokopedia search URL
with the filter parameters, in `urlencode`'s dict order
(`q`, `condition=1`, `rt=4,5`, `goldmerchant=true`, `ob=5`, `rows=30`). -/
def buildSmartUrl (query : List Char) : List Char :=
  strA "https://www.tokopedia.com/search?q=" ++ quotePlus query ++
    strA "&condition=1&rt=4%2C5&goldmerchant=true&ob=5&rows=30"

/-- The mutable state of a `TokopediaScraper` instance: the query cache
(`dict` modelled as last-write-first association list), the rate-limiter
timestamp, and a ghost counter of issued fetches (so "exactly one external
fetch" is statable). -/
structure ScraperState where
  cache : List (List Char × MarketPrice × Nat)
  lastRequest : Option Nat
  fetchCount : Nat
deriving DecidableEq

/-- A freshly constructed scraper (`TokopediaScraper.__init__`). -/
def initScraperState : ScraperState := ⟨[], none, 0⟩

/-- Python dict lookup on the association-list model (the most recent
binding wins). -/
def cacheLookup (c : List (List Char × MarketPrice × Nat)) (q : List Char) :
    Option (MarketPrice × Nat) :=
  (c.find? (fun e => e.1 = q)).map (fun e => e.2)

/-- Python `del cache[q]`. -/
def cacheErase (c : List (List Char × MarketPrice × Nat)) (q : List Char) :
    List (List Char × MarketPrice × Nat) :=
  c.filter (fun e => ¬ e.1 = q)

/-- `TokopediaScraper._get_from_cache`: a hit younger than
`CACHE_DURATION = 3600` seconds is returned; an expired entry is deleted. -/
def getFromCache (c : List (List Char × MarketPrice × Nat)) (q : List Char)
    (now : Nat) : Option MarketPrice × List (List Char × MarketPrice × Nat) :=
  match cacheLookup c q with
  | none => (none, c)
  | some (r, t) => if now - t < 3600 then (some r, c) else (none, cacheErase c q)

/-- `TokopediaScraper._save_to_cache`. -/
def saveToCache (c : List (List Char × MarketPrice × Nat)) (q : List Char)
    (r : MarketPrice) (now : Nat) : List (List Char × MarketPrice × Nat) :=
  (q, r, now) :: c

/-- `TokopediaScraper.get_market_price`, with the network fetch abstracted
as an oracle from the built URL to the extracted raw prices.  Returns the
result and the updated scraper state.  The short-query guard returns
immediately; a fresh cache hit short-circuits the rate limiter and the
fetch; otherwise the rate limiter stamps `lastRequest`, one fetch is
issued, and a successful estimate is cached. -/
def getMarketPrice (fetch : List Char → List Nat) (now : Nat)
    (deviceName : List Char) (st : ScraperState) :
    Option MarketPrice × ScraperState :=
  if deviceName = [] ∨ (pyStrip deviceName).length < 3 then (none, st)
  else
    let query := normalizeQuery deviceName
    match getFromCache st.cache query now with
    | (some cached, cache2) => (some cached, { st with cache := cache2 })
    | (none, cache2) =>
        let st1 : ScraperState :=
          { cache := cache2, lastRequest := some now,
            fetchCount := st.fetchCount + 1 }
        let url := buildSmartUrl query
        let rawPrices := fetch url
        match getMarketPriceCore rawPrices url now with
        | none => (none, st1)
        | some result =>
            (some result, { st1 with cache := saveToCache cache2 query result now })

/-! ### C7: empty raw sample yields absence -/

/-- C7.  An empty raw price sample never produces a `MarketPrice`: the core
returns `None` before any statistics, and a full pipeline run whose fetch
yields no prices returns `None` (shown from a fresh scraper, where no
earlier result can be served from the cache). -/
theorem empty_sample_returns_none :
    (∀ url now, getMarketPriceCore [] url now = none) ∧
    (∀ fetch now deviceName, (∀ u, fetch u = []) →
      (getMarketPrice fetch now deviceName initScraperState).1 = none) := by
  constructor
  · intro url now
    unfold getMarketPriceCore
    rw [if_pos rfl]
  · intro fetch now deviceName hfetch
    unfold getMarketPrice
    split
    · rfl
    · dsimp only
      have hcache : getFromCache initScraperState.cache
          (normalizeQuery deviceName) now = (none, []) := rfl
      rw [hcache, hfetch]
      have hcore : ∀ url, getMarketPriceCore [] url now = none := by
        intro url
        unfold getMarketPriceCore
        rw [if_pos rfl]
      rw [hcore]

/-- Witness: a fetch that finds nothing for a concrete query yields `None`,
not a zero-valued record. -/
theorem empty_sample_returns_none_witness :
    (getMarketPrice (fun _ => []) 0 (strA "iphone 15 pro max")
      initScraperState).1 = none :=
  empty_sample_returns_none.2 (fun _ => []) 0 _ (fun _ => rfl)

/-! ### C10: short-query guard -/

/-- C10.  A device name whose whitespace-stripped length is below 3 (in
particular the empty name) makes `get_market_price` return `None` at once,
with the scraper state — cache, rate-limiter timestamp and fetch counter —
untouched. -/
theorem short_query_guard (fetch : List Char → List Nat) (now : Nat)
    (deviceName : List Char) (st : ScraperState)
    (hshort : (pyStrip deviceName).length < 3) :
    getMarketPrice fetch now deviceName st = (none, st) := by
  unfold getMarketPrice
  rw [if_pos (Or.inr hshort)]

/-- Witness: the two-character name `"ab"` is rejected without touching a
non-trivial state. -/
theorem short_query_guard_witness :
    getMarketPrice (fun _ => [1000000]) 5 (strA "ab")
        ⟨[], some 1, 7⟩ = (none, ⟨[], some 1, 7⟩) :=
  short_query_guard _ 5 _ _ (by decide)

/-! ### C8: cache idempotence -/

/-- C8.  Calling the sampler twice for the same normalized query, the second
call within `CACHE_DURATION = 3600` seconds of a successful first call from
a fresh scraper, issues exactly one external fetch: the first call fetched
once (`fetchCount = 1`), and the second call returns the cached estimate
with the state — fetch counter, rate-limiter timestamp and cache —
completely unchanged. -/
theorem cache_hit_idempotence
    (fetch : List Char → List Nat) (now₁ now₂ : Nat)
    (name₁ name₂ : List Char) (r : MarketPrice) (st₁ : ScraperState)
    (h1 : getMarketPrice fetch now₁ name₁ initScraperState = (some r, st₁))
    (hname : normalizeQuery name₂ = normalizeQuery name₁)
    (hlen : 3 ≤ (pyStrip name₂).length)
    (_hmono : now₁ ≤ now₂) (httl : now₂ - now₁ < 3600) :
    getMarketPrice fetch now₂ name₂ st₁ = (some r, st₁) ∧ st₁.fetchCount = 1 := by
  unfold getMarketPrice at h1
  split at h1
  · exfalso
    have hfst := congrArg Prod.fst h1
    simp at hfst
  · dsimp only at h1
    rw [show getFromCache initScraperState.cache (normalizeQuery name₁) now₁ =
        (none, []) from rfl] at h1
    dsimp only at h1
    split at h1
    · exfalso
      have hfst := congrArg Prod.fst h1
      simp at hfst
    · rename_i result hcore
      rw [Prod.mk.injEq] at h1
      obtain ⟨hr, hst⟩ := h1
      injection hr with hr
      subst hr
      subst hst
      have hguard : ¬ (name₂ = [] ∨ (pyStrip name₂).length < 3) := by
        rintro (rfl | hlt)
        · exact absurd hlen (by decide)
        · omega
      constructor
      · unfold getMarketPrice
        rw [if_neg hguard]
        dsimp only
        rw [hname]
        have hlook : getFromCache
            (saveToCache [] (normalizeQuery name₁) result now₁)
            (normalizeQuery name₁) now₂ =
            (some result, saveToCache [] (normalizeQuery name₁) result now₁) := by
          unfold getFromCache cacheLookup saveToCache
          rw [List.find?_cons_of_pos _ (by simp), Option.map_some']
          dsimp only
          rw [if_pos httl]
        rw [hlook]
      · rfl

/-- Witness: a concrete two-call run.  The oracle always finds the same
five prices; the first call (at `t = 0`) fetches and caches, the second
(at `t = 10`) is served from the cache with the state unchanged. -/
theorem cache_hit_idempotence_witness :
    getMarketPrice (fun _ => [8000000, 8100000, 8200000, 8300000, 8400000])
        10 (strA "galaxy s24")
        ⟨[(strA "galaxy s24",
            ⟨8200000, 8000000, 8400000, 5, 5, strA "medium",
              buildSmartUrl (strA "galaxy s24"), 0⟩, 0)],
          some 0, 1⟩ =
      (some ⟨8200000, 8000000, 8400000, 5, 5, strA "medium",
          buildSmartUrl (strA "galaxy s24"), 0⟩,
        ⟨[(strA "galaxy s24",
            ⟨8200000, 8000000, 8400000, 5, 5, strA "medium",
              buildSmartUrl (strA "galaxy s24"), 0⟩, 0)],
          some 0, 1⟩) ∧
    (ScraperState.mk
        [(strA "galaxy s24",
          ⟨8200000, 8000000, 8400000, 5, 5, strA "medium",
            buildSmartUrl (strA "galaxy s24"), 0⟩, 0)]
        (some 0) 1).fetchCount = 1 :=
  cache_hit_idempotence (fun _ => [8000000, 8100000, 8200000, 8300000, 8400000])
    0 10 (strA "galaxy s24") (strA "galaxy s24") _ _
    (by decide) rfl (by decide) (by decide) (by decide)

/-! ## Signature Extractor (`UserAgentParser`) -/

/-- `ParsedDevice` dataclass of `user_agent.py`. -/
structure ParsedDevice where
  model_code : List Char
  os_type : List Char
  os_version : Option (List Char)
  browser : Option (List Char)
  raw_user_agent : List Char
deriving DecidableEq, Repr

/-- `Android\s*[\d.]+;` at the start of `s` (case-insensitive): the shared
prefix of the three Android model patterns and the version pattern.
Returns the remainder after the `;`.  The quantifiers need no backtracking:
`\s*` is followed by a digit and `[\d.]+` (greedy) by `;`, neither of which
the preceding class can absorb. -/
def afterAndroidMarker (s : List Char) : Option (List Char) :=
  (ciSplit s (strA "android")).bind fun m =>
    let r2 := dropLeadWs m.2
    if (r2.takeWhile isDigitDot).isEmpty then none
    else
      match r2.dropWhile isDigitDot with
      | ';' :: r4 => some r4
      | _ => none

/-- `\s*Build/` (case-insensitive), the tail of `ANDROID_BUILD_PATTERN`. -/
def buildTail (r : List Char) : Bool :=
  ((strA "build/").isPrefixOf (lcStr (dropLeadWs r)))

/-- The lazy group `([^)]+?)` of `ANDROID_BUILD_PATTERN` followed by
`\s*Build/`: extend the group one character at a time (shortest match
first, as `+?` does), never past a `)`. -/
def buildGroup : List Char → List Char → Option (List Char)
  | [], _ => none
  | c :: rest, acc =>
      if c = ')' then none
      else if buildTail rest then some (acc ++ [c])
      else buildGroup rest (acc ++ [c])

/-- `\s*([^)]+?)\s*Build/` after the `;`: the engine consumes `\s*`
greedily and backtracks one whitespace character at a time when the rest
fails, so whitespace characters can end up inside the group (which is how
CPython matches `"Android 4;  Build/"` with a whitespace group). -/
def buildWs : List Char → Option (List Char)
  | [] => none
  | c :: rest =>
      if pyIsSpace c then
        match buildWs rest with
        | some g => some g
        | none => buildGroup (c :: rest) []
      else buildGroup (c :: rest) []

/-- `ANDROID_BUILD_PATTERN = Android\s*[\d.]+;\s*([^)]+?)\s*Build/`
(case-insensitive) at one start position; `findBuild` is its
`re.search`. -/
def matchBuildAt (s : List Char) : Option (List Char) :=
  (afterAndroidMarker s).bind buildWs

def findBuild (ua : List Char) : Option (List Char) := scanFor matchBuildAt ua

/-- The class `[A-Za-z0-9_\-\s]` of `ANDROID_PAREN_PATTERN`'s group. -/
def isParenCls (c : Char) : Bool :=
  isAsciiAlnum c || c = '_' || c = '-' || pyIsSpace c

/-- The tail `(?:\s*\)|;)` of `ANDROID_PAREN_PATTERN`. -/
def parenTail (r : List Char) : Bool :=
  (match dropLeadWs r with
   | ')' :: _ => true
   | _ => false) ||
  (match r with
   | ';' :: _ => true
   | _ => false)

/-- The lazy part `[A-Za-z0-9_\-\s]+?` of `ANDROID_PAREN_PATTERN`'s group
(at least one character after the leading alphanumeric), shortest first. -/
def parenGroup : List Char → List Char → Option (List Char)
  | [], _ => none
  | c :: rest, acc =>
      if ¬ isParenCls c then none
      else if parenTail rest then some (acc ++ [c])
      else parenGroup rest (acc ++ [c])

/-- `ANDROID_PAREN_PATTERN =
Android\s*[\d.]+;\s*([A-Za-z0-9][A-Za-z0-9_\-\s]+?)(?:\s*\)|;)`
(case-insensitive).  Here `\s*` needs no backtracking: the group must start
with an alphanumeric character. -/
def matchParenAt (s : List Char) : Option (List Char) :=
  (afterAndroidMarker s).bind fun r4 =>
    match dropLeadWs r4 with
    | [] => none
    | c :: rest => if isAsciiAlnum c then parenGroup rest [c] else none

def findParen (ua : List Char) : Option (List Char) := scanFor matchParenAt ua

/-- The tail `\s*MIUI` (case-insensitive) of `ANDROID_MIUI_PATTERN`. -/
def miuiTail (r : List Char) : Bool :=
  (strA "miui").isPrefixOf (lcStr (dropLeadWs r))

/-- The lazy part of `ANDROID_MIUI_PATTERN`'s group (same class as the
paren pattern), shortest first, followed by `\s*MIUI`. -/
def miuiGroup : List Char → List Char → Option (List Char)
  | [], _ => none
  | c :: rest, acc =>
      if ¬ isParenCls c then none
      else if miuiTail rest then some (acc ++ [c])
      else miuiGroup rest (acc ++ [c])

def miuiGroupStart (r : List Char) : Option (List Char) :=
  match r with
  | [] => none
  | c :: rest => if isAsciiAlnum c then miuiGroup rest [c] else none

/-- `ANDROID_MIUI_PATTERN =
Android\s*[\d.]+;\s*(?:wv;\s*)?([A-Za-z0-9][A-Za-z0-9_\-\s]+?)\s*MIUI`
(case-insensitive).  The greedy optional `(?:wv;\s*)?` is tried with the
`wv;` first, falling back to starting the group at the `w`. -/
def matchMiuiAt (s : List Char) : Option (List Char) :=
  (afterAndroidMarker s).bind fun r4 =>
    let r5 := dropLeadWs r4
    if (strA "wv;").isPrefixOf (lcStr r5) then
      match miuiGroupStart (dropLeadWs (r5.drop 3)) with
      | some g => some g
      | none => miuiGroupStart r5
    else miuiGroupStart r5

def findMiui (ua : List Char) : Option (List Char) := scanFor matchMiuiAt ua

/-- `ANDROID_VERSION_PATTERN = Android\s*([\d.]+)` (case-insensitive):
the greedy group captures the maximal digit-dot run. -/
def matchAndroidVersionAt (s : List Char) : Option (List Char) :=
  (ciSplit s (strA "android")).bind fun m =>
    let r2 := dropLeadWs m.2
    let ds := r2.takeWhile isDigitDot
    if ds.isEmpty then none else some ds

def findAndroidVersion (ua : List Char) : Option (List Char) :=
  scanFor matchAndroidVersionAt ua

/-- `re.sub(r'\s*Build$', '', mc, flags=IGNORECASE)`: when the string ends
with `Build` (any case), remove it together with the whitespace run before
it (the leftmost match of `\s*Build$` starts before all of that
whitespace); otherwise leave the string unchanged. -/
def subBuildSuffix (mc : List Char) : List Char :=
  if (strA "dliub").isPrefixOf (lcStr mc).reverse then
    dropTrailWs (mc.take (mc.length - 5))
  else mc

/-- Helper for `subMiuiSuffix`: the prefix of `mc` before its first
case-insensitive occurrence of `MIUI`, or `none` when there is none. -/
def miuiCut : List Char → Option (List Char)
  | [] => none
  | c :: rest =>
      if (strA "miui").isPrefixOf (lcStr (c :: rest)) then some []
      else (miuiCut rest).map (fun pre => c :: pre)

/-- `re.sub(r'\s*MIUI.*$', '', mc, flags=IGNORECASE)`: cut everything from
the first `MIUI` (any case) to the end, together with the whitespace run
immediately before it. -/
def subMiuiSuffix (mc : List Char) : List Char :=
  match miuiCut mc with
  | some pre => dropTrailWs pre
  | none => mc

/-- `re.sub(r'^wv;\s*', '', mc, flags=IGNORECASE)`: strip a leading `wv;`
(any case) and the whitespace run after it. -/
def subWvPrefix (mc : List Char) : List Char :=
  if (strA "wv;").isPrefixOf (lcStr mc) then dropLeadWs (mc.drop 3)
  else mc

/-- The raw Android model code, before cleanup: the first of the three
patterns that matches (Build, then paren, then MIUI), stripped; defaults to
`Android Device`. -/
def androidModelRaw (ua : List Char) : List Char :=
  match findBuild ua with
  | some g => pyStrip g
  | none =>
      match findParen ua with
      | some g => pyStrip g
      | none =>
          match findMiui ua with
          | some g => pyStrip g
          | none => strA "Android Device"

/-- The cleanup block of `_parse_android` (guarded by
`if model_code and model_code != "Android Device"`): strip a trailing
`Build`, a trailing `MIUI...`, a leading `wv;`, and replace Chrome's
privacy placeholder `K` by the default. -/
def androidCleanup (mc : List Char) : List Char :=
  if mc = [] || mc = strA "Android Device" then mc
  else
    let m1 := subBuildSuffix mc
    let m2 := subMiuiSuffix m1
    let m3 := subWvPrefix m2
    if pyStrip m3 = strA "K" then strA "Android Device" else m3

/-- `UserAgentParser._detect_browser`. -/
def detectBrowser (ua : List Char) : List Char :=
  let lc := lcStr ua
  if containsSub lc (strA "miuibrowser") then strA "MIUI Browser"
  else if containsSub lc (strA "edg/") then strA "Edge"
  else if containsSub lc (strA "chrome") && containsSub lc (strA "safari") then
    strA "Chrome"
  else if containsSub lc (strA "firefox") then strA "Firefox"
  else if containsSub lc (strA "safari") && ¬ containsSub lc (strA "chrome") then
    strA "Safari"
  else if containsSub lc (strA "opera") || containsSub lc (strA "opr/") then
    strA "Opera"
  else strA "Unknown"

/-- `UserAgentParser._parse_android`. -/
def parseAndroid (ua : List Char) : ParsedDevice :=
  let mc := androidCleanup (androidModelRaw ua)
  { model_code := if mc = [] then strA "Android Device" else pyStrip mc
    os_type := strA "android"
    os_version := findAndroidVersion ua
    browser := some (detectBrowser ua)
    raw_user_agent := ua }

/-- `IOS_PATTERN = (iPhone|iPad|iPod)` (case-insensitive), alternatives in
pattern order; the group is the slice of the input (case preserved). -/
def matchIosAt (s : List Char) : Option (List Char) :=
  match ciSplit s (strA "iphone") with
  | some m => some m.1
  | none =>
      match ciSplit s (strA "ipad") with
      | some m => some m.1
      | none =>
          match ciSplit s (strA "ipod") with
          | some m => some m.1
          | none => none

def findIosKeyword (ua : List Char) : Option (List Char) := scanFor matchIosAt ua

/-- The keyword together with the remainder after it, for the version
pattern's lazy gap. -/
def matchIosKeywordRest (s : List Char) : Option (List Char × List Char) :=
  match ciSplit s (strA "iphone") with
  | some m => some m
  | none =>
      match ciSplit s (strA "ipad") with
      | some m => some m
      | none => ciSplit s (strA "ipod")

/-- `OS\s*([\d_]+)` (case-insensitive) at one position. -/
def matchOsVersionAt (s : List Char) : Option (List Char) :=
  (ciSplit s (strA "os")).bind fun m =>
    let r2 := dropLeadWs m.2
    let ds := r2.takeWhile isDigitUnderscore
    if ds.isEmpty then none else some ds

/-- `IOS_VERSION_PATTERN = (?:iPhone|iPad|iPod).*?OS\s*([\d_]+)`: leftmost
keyword, then (lazy gap) leftmost `OS`-match after it. -/
def findIosVersion (ua : List Char) : Option (List Char) :=
  (scanFor matchIosKeywordRest ua).bind fun m => scanFor matchOsVersionAt m.2

/-- Python `str.replace('_', '.')`. -/
def underscoresToDots (v : List Char) : List Char :=
  v.map (fun c => if c = '_' then '.' else c)

/-- `UserAgentParser._parse_ios`. -/
def parseIos (ua : List Char) : ParsedDevice :=
  { model_code :=
      match findIosKeyword ua with
      | some k => k
      | none => strA "iPhone"
    os_type := strA "ios"
    os_version := (findIosVersion ua).map underscoresToDots
    browser := some (detectBrowser ua)
    raw_user_agent := ua }

/-- `WINDOWS_PATTERN = Windows\s*(?:NT)?\s*([\d.]+)` (case-insensitive):
the greedy optional `NT` is tried first; a whitespace run separates it from
the digits. -/
def matchWindowsVersionAt (s : List Char) : Option (List Char) :=
  (ciSplit s (strA "windows")).bind fun m =>
    let a := dropLeadWs m.2
    let direct :=
      let ds := a.takeWhile isDigitDot
      if ds.isEmpty then none else some ds
    if (strA "nt").isPrefixOf (lcStr a) then
      let b := dropLeadWs (a.drop 2)
      let ds := b.takeWhile isDigitDot
      if ds.isEmpty then direct else some ds
    else direct

def findWindowsVersion (ua : List Char) : Option (List Char) :=
  scanFor matchWindowsVersionAt ua

/-- The `windows_versions` table of `_parse_windows`. -/
def windowsVersionName (v : List Char) : Option (List Char) :=
  if v = strA "10.0" then some (strA "Windows 10/11")
  else if v = strA "6.3" then some (strA "Windows 8.1")
  else if v = strA "6.2" then some (strA "Windows 8")
  else if v = strA "6.1" then some (strA "Windows 7")
  else if v = strA "6.0" then some (strA "Windows Vista")
  else if v = strA "5.1" then some (strA "Windows XP")
  else none

/-- `UserAgentParser._parse_windows`:
`windows_versions.get(os_version, f'Windows {os_version}' if os_version
else 'Windows PC')`. -/
def parseWindows (ua : List Char) : ParsedDevice :=
  let osv := findWindowsVersion ua
  let mc :=
    match osv with
    | some v =>
        (windowsVersionName v).getD
          (if v = [] then strA "Windows PC" else strA "Windows " ++ v)
    | none => strA "Windows PC"
  { model_code := mc
    os_type := strA "windows"
    os_version := osv
    browser := some (detectBrowser ua)
    raw_user_agent := ua }

/-- `Mac OS X\s*([\d_]+)` (case-insensitive) at one position. -/
def matchMacVersionAt (s : List Char) : Option (List Char) :=
  (ciSplit s (strA "mac os x")).bind fun m =>
    let r2 := dropLeadWs m.2
    let ds := r2.takeWhile isDigitUnderscore
    if ds.isEmpty then none else some ds

/-- `MAC_PATTERN = Macintosh.*Mac OS X\s*([\d_]+)`: leftmost `Macintosh`,
then — because `.*` is greedy — the *rightmost* `Mac OS X` match in the
remainder. -/
def findMacVersion (ua : List Char) : Option (List Char) :=
  (scanFor (fun s => ciSplit s (strA "macintosh")) ua).bind fun m =>
    scanRev matchMacVersionAt m.2

/-- `UserAgentParser._parse_mac`. -/
def parseMac (ua : List Char) : ParsedDevice :=
  { model_code := strA "MacBook/iMac"
    os_type := strA "macos"
    os_version := (findMacVersion ua).map underscoresToDots
    browser := some (detectBrowser ua)
    raw_user_agent := ua }

/-- `UserAgentParser.parse`: the platform dispatch. -/
def uaParse (ua : List Char) : ParsedDevice :=
  if ua = [] then
    { model_code := strA "Unknown", os_type := strA "unknown",
      os_version := none, browser := none, raw_user_agent := [] }
  else
    let lc := lcStr ua
    if containsSub lc (strA "android") then parseAndroid ua
    else if containsSub lc (strA "iphone") || containsSub lc (strA "ipad") ||
        containsSub lc (strA "ipod") then parseIos ua
    else if containsSub lc (strA "windows") then parseWindows ua
    else if containsSub lc (strA "macintosh") then parseMac ua
    else if containsSub lc (strA "linux") then
      { model_code := strA "Linux Device", os_type := strA "linux",
        os_version := none, browser := none, raw_user_agent := ua }
    else
      { model_code := strA "Unknown", os_type := strA "other",
        os_version := none, browser := none, raw_user_agent := ua }

/-- `dict.fromkeys` de-duplication, preserving first occurrences. -/
def dedupFirstAux : List (List Char) → List (List Char) → List (List Char)
  | [], _ => []
  | x :: xs, seen =>
      if x ∈ seen then dedupFirstAux xs seen
      else x :: dedupFirstAux xs (x :: seen)

def dedupFirst (l : List (List Char)) : List (List Char) := dedupFirstAux l []

/-- `UserAgentParser.extract_model_codes`: the parsed model code (unless it
is one of the placeholders `Unknown`, `Android Device`, `K`), its despaced
variant (when it contains a space), its uppercase and lowercase variants,
de-duplicated preserving order. -/
def extractModelCodes (ua : List Char) : List (List Char) :=
  let m := (uaParse ua).model_code
  let codes :=
    if m ≠ [] ∧ m ≠ strA "Unknown" ∧ m ≠ strA "Android Device" ∧ m ≠ strA "K" then
      [m] ++ (if m.contains ' ' then [m.filter (fun c => c ≠ ' ')] else []) ++
        [ucStr m, lcStr m]
    else []
  dedupFirst codes

/-! ### Support lemmas for the extractor -/

/-- A string with no leading and no trailing whitespace (the shape of every
intermediate `model_code` in `_parse_android` after the initial
`.strip()`). -/
def noEdgeWs (l : List Char) : Prop :=
  (∀ c, l.head? = some c → pyIsSpace c = false) ∧
  (∀ c, l.getLast? = some c → pyIsSpace c = false)

theorem head?_dropWhile_not {p : Char → Bool} :
    ∀ {l : List Char} {c : Char}, (l.dropWhile p).head? = some c → p c = false := by
  intro l
  induction l with
  | nil => intro c h; cases h
  | cons a t ih =>
    intro c h
    rw [List.dropWhile_cons] at h
    split at h
    · exact ih h
    · rename_i hpa
      rw [List.head?_cons, Option.some.injEq] at h
      subst h
      exact Bool.of_not_eq_true hpa

theorem dropWhile_eq_self_of_head {p : Char → Bool} {l : List Char}
    (h : ∀ c, l.head? = some c → p c = false) : l.dropWhile p = l := by
  cases l with
  | nil => rfl
  | cons a t =>
    rw [List.dropWhile_cons, if_neg]
    rw [h a rfl]
    simp

theorem head?_prefix_eq {l₁ l₂ : List Char} {c : Char}
    (hpre : l₁ <+: l₂) (h : l₁.head? = some c) : l₂.head? = some c := by
  obtain ⟨t, rfl⟩ := hpre
  cases l₁ with
  | nil => cases h
  | cons a t₁ =>
    rw [List.head?_cons, Option.some.injEq] at h
    subst h
    rfl

theorem getLast?_suffix_eq {l₁ l₂ : List Char} {c : Char}
    (hsuf : l₁ <:+ l₂) (h : l₁.getLast? = some c) : l₂.getLast? = some c := by
  obtain ⟨t, rfl⟩ := hsuf
  rw [List.getLast?_append, h]
  rfl

theorem dropTrailWs_isPre (l : List Char) : dropTrailWs l <+: l := by
  have hsuf : l.reverse.dropWhile pyIsSpace <:+ l.reverse :=
    List.dropWhile_suffix _
  obtain ⟨t, ht⟩ := hsuf
  refine ⟨t.reverse, ?_⟩
  have := congrArg List.reverse ht
  rw [List.reverse_append, List.reverse_reverse] at this
  exact this

theorem head?_dropTrailWs {l : List Char} {c : Char}
    (h : (dropTrailWs l).head? = some c) : l.head? = some c :=
  head?_prefix_eq (dropTrailWs_isPre l) h

theorem getLast?_dropTrailWs_not {l : List Char} {c : Char}
    (h : (dropTrailWs l).getLast? = some c) : pyIsSpace c = false := by
  unfold dropTrailWs at h
  rw [List.getLast?_reverse] at h
  exact head?_dropWhile_not h

theorem getLast?_dropLeadWs {l : List Char} {c : Char}
    (h : (dropLeadWs l).getLast? = some c) : l.getLast? = some c :=
  getLast?_suffix_eq (List.dropWhile_suffix _) h

theorem noEdgeWs_pyStrip (l : List Char) : noEdgeWs (pyStrip l) := by
  constructor
  · intro c h
    exact head?_dropWhile_not (head?_dropTrailWs h)
  · intro c h
    exact getLast?_dropTrailWs_not h

theorem pyStrip_eq_self {l : List Char} (h : noEdgeWs l) : pyStrip l = l := by
  unfold pyStrip dropLeadWs dropTrailWs
  rw [dropWhile_eq_self_of_head h.1, dropWhile_eq_self_of_head, List.reverse_reverse]
  intro c hc
  rw [List.head?_reverse] at hc
  exact h.2 c hc

theorem pyStrip_ne_nil {l : List Char} (h : noEdgeWs l) (hne : l ≠ []) :
    pyStrip l ≠ [] := by
  rw [pyStrip_eq_self h]
  exact hne

theorem head?_take_eq {l : List Char} {n : Nat} {c : Char}
    (h : (l.take n).head? = some c) : l.head? = some c :=
  head?_prefix_eq (List.take_prefix n l) h

/-- `subBuildSuffix` keeps the no-edge-whitespace invariant. -/
theorem noEdgeWs_subBuildSuffix {mc : List Char} (h : noEdgeWs mc) :
    noEdgeWs (subBuildSuffix mc) := by
  unfold subBuildSuffix
  split
  · constructor
    · intro c hc
      exact h.1 c (head?_take_eq (head?_dropTrailWs hc))
    · intro c hc
      exact getLast?_dropTrailWs_not hc
  · exact h

theorem miuiCut_head {mc pre : List Char} (hcut : miuiCut mc = some pre) :
    ∀ c, pre.head? = some c → mc.head? = some c := by
  induction mc generalizing pre with
  | nil => cases hcut
  | cons a t ih =>
    intro c hc
    unfold miuiCut at hcut
    split at hcut
    · rw [Option.some.injEq] at hcut
      subst hcut
      cases hc
    · rw [Option.map_eq_some'] at hcut
      obtain ⟨pre', hpre', rfl⟩ := hcut
      rw [List.head?_cons, Option.some.injEq] at hc
      subst hc
      rfl

/-- `subMiuiSuffix` keeps the no-edge-whitespace invariant. -/
theorem noEdgeWs_subMiuiSuffix {mc : List Char} (h : noEdgeWs mc) :
    noEdgeWs (subMiuiSuffix mc) := by
  unfold subMiuiSuffix
  split
  · rename_i pre hcut
    constructor
    · intro c hc
      exact h.1 c (miuiCut_head hcut c (head?_dropTrailWs hc))
    · intro c hc
      exact getLast?_dropTrailWs_not hc
  · exact h

/-- `subWvPrefix` keeps the no-edge-whitespace invariant. -/
theorem noEdgeWs_subWvPrefix {mc : List Char} (h : noEdgeWs mc) :
    noEdgeWs (subWvPrefix mc) := by
  unfold subWvPrefix
  split
  · constructor
    · intro c hc
      exact head?_dropWhile_not hc
    · intro c hc
      exact h.2 c (getLast?_suffix_eq
        ((List.drop_suffix 3 mc).trans (List.suffix_refl mc)) (getLast?_dropLeadWs hc))
  · exact h

theorem noEdgeWs_android_device : noEdgeWs (strA "Android Device") := by
  constructor
  · intro c h
    rw [show (strA "Android Device").head? = some 'A' from rfl,
      Option.some.injEq] at h
    subst h
    rfl
  · intro c h
    rw [show (strA "Android Device").getLast? = some 'e' from by decide,
      Option.some.injEq] at h
    subst h
    rfl

theorem noEdgeWs_androidModelRaw (ua : List Char) :
    noEdgeWs (androidModelRaw ua) := by
  unfold androidModelRaw
  split
  · exact noEdgeWs_pyStrip _
  · split
    · exact noEdgeWs_pyStrip _
    · split
      · exact noEdgeWs_pyStrip _
      · exact noEdgeWs_android_device

theorem noEdgeWs_androidCleanup {mc : List Char} (h : noEdgeWs mc) :
    noEdgeWs (androidCleanup mc) := by
  unfold androidCleanup
  split
  · exact h
  · dsimp only
    split
    · exact noEdgeWs_android_device
    · exact noEdgeWs_subWvPrefix (noEdgeWs_subMiuiSuffix (noEdgeWs_subBuildSuffix h))

/-- The Android branch always returns a non-empty model token. -/
theorem parseAndroid_model_ne_nil (ua : List Char) :
    (parseAndroid ua).model_code ≠ [] := by
  unfold parseAndroid
  dsimp only
  split
  · exact (by decide : strA "Android Device" ≠ [])
  · rename_i hne
    exact pyStrip_ne_nil
      (noEdgeWs_androidCleanup (noEdgeWs_androidModelRaw ua)) hne

theorem scanFor_eq_some {α : Type} {f : List Char → Option α} :
    ∀ {l : List Char} {r : α}, scanFor f l = some r → ∃ s, f s = some r := by
  intro l
  induction l with
  | nil =>
    intro r h
    exact ⟨[], h⟩
  | cons c rest ih =>
    intro r h
    unfold scanFor at h
    split at h
    · rename_i heq
      rw [Option.some.injEq] at h
      subst h
      exact ⟨c :: rest, heq⟩
    · exact ih h

theorem ciSplit_fst_ne_nil {s pat : List Char} {m : List Char × List Char}
    (h : ciSplit s pat = some m) (hpat : pat ≠ []) : m.1 ≠ [] := by
  cases pat with
  | nil => exact absurd rfl hpat
  | cons p ps =>
    cases s with
    | nil => cases h
    | cons c t =>
      unfold ciSplit at h
      split at h
      · rw [Option.map_eq_some'] at h
        obtain ⟨m', _, rfl⟩ := h
        dsimp only
        exact List.cons_ne_nil _ _
      · cases h

theorem matchIosAt_ne_nil {s k : List Char} (h : matchIosAt s = some k) :
    k ≠ [] := by
  unfold matchIosAt at h
  split at h
  · rename_i m heq
    rw [Option.some.injEq] at h
    subst h
    exact ciSplit_fst_ne_nil heq (by decide)
  · split at h
    · rename_i m heq
      rw [Option.some.injEq] at h
      subst h
      exact ciSplit_fst_ne_nil heq (by decide)
    · split at h
      · rename_i m heq
        rw [Option.some.injEq] at h
        subst h
        exact ciSplit_fst_ne_nil heq (by decide)
      · cases h

/-- The iOS branch always returns a non-empty model token. -/
theorem parseIos_model_ne_nil (ua : List Char) :
    (parseIos ua).model_code ≠ [] := by
  unfold parseIos
  dsimp only
  split
  · rename_i k hk
    obtain ⟨s, hs⟩ := scanFor_eq_some hk
    exact matchIosAt_ne_nil hs
  · exact (by decide : strA "iPhone" ≠ [])

theorem windowsVersionName_ne_nil {v name : List Char}
    (h : windowsVersionName v = some name) : name ≠ [] := by
  unfold windowsVersionName at h
  split at h
  · rw [Option.some.injEq] at h; subst h; decide
  · split at h
    · rw [Option.some.injEq] at h; subst h; decide
    · split at h
      · rw [Option.some.injEq] at h; subst h; decide
      · split at h
        · rw [Option.some.injEq] at h; subst h; decide
        · split at h
          · rw [Option.some.injEq] at h; subst h; decide
          · split at h
            · rw [Option.some.injEq] at h; subst h; decide
            · cases h

/-- The Windows branch always returns a non-empty model token. -/
theorem parseWindows_model_ne_nil (ua : List Char) :
    (parseWindows ua).model_code ≠ [] := by
  unfold parseWindows
  dsimp only
  cases hosv : findWindowsVersion ua with
  | none => decide
  | some v =>
      dsimp only
      cases hw : windowsVersionName v with
      | none =>
          rw [Option.getD_none]
          split
          · decide
          · exact List.cons_ne_nil _ _
      | some name =>
          rw [Option.getD_some]
          exact windowsVersionName_ne_nil hw

/-- The platform enum of the spec's `DeviceSignature`. -/
def platformEnum : List (List Char) :=
  [strA "android", strA "ios", strA "windows", strA "macos", strA "linux",
   strA "other", strA "unknown"]

/-- No platform marker occurs in the identification string (the
"unparseable" case of the spec). -/
def noPlatformMarker (ua : List Char) : Prop :=
  containsSub (lcStr ua) (strA "android") = false ∧
  containsSub (lcStr ua) (strA "iphone") = false ∧
  containsSub (lcStr ua) (strA "ipad") = false ∧
  containsSub (lcStr ua) (strA "ipod") = false ∧
  containsSub (lcStr ua) (strA "windows") = false ∧
  containsSub (lcStr ua) (strA "macintosh") = false ∧
  containsSub (lcStr ua) (strA "linux") = false

/-- Shared invariant: `parse` always returns a non-empty model token. -/
theorem uaParse_model_ne_nil (ua : List Char) :
    (uaParse ua).model_code ≠ [] := by
  unfold uaParse
  split
  · decide
  · dsimp only
    split
    · exact parseAndroid_model_ne_nil ua
    · split
      · exact parseIos_model_ne_nil ua
      · split
        · exact parseWindows_model_ne_nil ua
        · split
          · exact (by decide : strA "MacBook/iMac" ≠ [])
          · split
            · exact (by decide : strA "Linux Device" ≠ [])
            · exact (by decide : strA "Unknown" ≠ [])

/-- Shared invariant: `parse` always returns one of the seven platform
values. -/
theorem uaParse_os_mem (ua : List Char) :
    (uaParse ua).os_type ∈ platformEnum := by
  unfold uaParse
  split
  · exact (by decide : strA "unknown" ∈ platformEnum)
  · dsimp only
    split
    · exact (by decide : strA "android" ∈ platformEnum)
    · split
      · exact (by decide : strA "ios" ∈ platformEnum)
      · split
        · exact (by decide : strA "windows" ∈ platformEnum)
        · split
          · exact (by decide : strA "macos" ∈ platformEnum)
          · split
            · exact (by decide : strA "linux" ∈ platformEnum)
            · exact (by decide : strA "other" ∈ platformEnum)

/-! ### C3: totality and sentinels of the extractor -/

/-- C3 (amended).  `parse` never fails: for every input the model token is
non-empty and the platform is one of the seven enum values.  On *empty*
input it returns `platform = unknown`, `modelToken = "Unknown"`; on
non-empty input carrying none of the platform markers it returns
`platform = other` (not `unknown`, as the claim states), with
`modelToken = "Unknown"`. -/
theorem extractor_total_wellformed (ua : List Char) :
    (uaParse ua).model_code ≠ [] ∧
    (uaParse ua).os_type ∈ platformEnum ∧
    (ua = [] →
      (uaParse ua).os_type = strA "unknown" ∧
      (uaParse ua).model_code = strA "Unknown") ∧
    (ua ≠ [] → noPlatformMarker ua →
      (uaParse ua).os_type = strA "other" ∧
      (uaParse ua).model_code = strA "Unknown") := by
  refine ⟨uaParse_model_ne_nil ua, uaParse_os_mem ua, ?_, ?_⟩
  · intro h
    subst h
    exact ⟨rfl, rfl⟩
  · intro hne hmark
    obtain ⟨h1, h2, h3, h4, h5, h6, h7⟩ := hmark
    unfold uaParse
    rw [if_neg hne]
    dsimp only
    rw [h1, h2, h3, h4, h5, h6, h7]
    exact ⟨rfl, rfl⟩

/-- Witness for the amended C3 at the unparseable input `"xyz"`. -/
theorem extractor_total_wellformed_witness :
    (uaParse (strA "xyz")).model_code ≠ [] ∧
    (uaParse (strA "xyz")).os_type = strA "other" ∧
    (uaParse (strA "xyz")).model_code = strA "Unknown" :=
  ⟨(extractor_total_wellformed (strA "xyz")).1,
    (extractor_total_wellformed (strA "xyz")).2.2.2 (by decide)
      ⟨by decide, by decide, by decide, by decide, by decide, by decide, by decide⟩⟩

/-- Counterexample to C3 as stated: on the non-empty unparseable input
`"xyz"` the code returns platform `other`, not the claimed `unknown`
(`unknown` is reserved for empty input). -/
theorem extractor_unknown_counterexample :
    (uaParse (strA "xyz")).os_type = strA "other" ∧
    (uaParse (strA "xyz")).os_type ≠ strA "unknown" := by
  constructor
  · decide
  · decide

/-! ### C9: the Android scenario -/

/-- C9.  The worked Android scenario: the Samsung UA yields model `SM-S911B`,
platform `android`, version `14`, browser `Chrome` (and the raw string is
retained). -/
theorem android_scenario :
    uaParse (strA "Mozilla/5.0 (Linux; Android 14; SM-S911B) AppleWebKit/537.36 (KHTML, like Gecko) Chrome/120.0.0.0 Safari/537.36") =
      { model_code := strA "SM-S911B"
        os_type := strA "android"
        os_version := some (strA "14")
        browser := some (strA "Chrome")
        raw_user_agent := strA "Mozilla/5.0 (Linux; Android 14; SM-S911B) AppleWebKit/537.36 (KHTML, like Gecko) Chrome/120.0.0.0 Safari/537.36" } := by
  decide

/-! ### C6: candidate token derivation -/

theorem dedupFirst_head (x : List Char) (xs : List (List Char)) :
    (dedupFirst (x :: xs)).head? = some x := by
  unfold dedupFirst dedupFirstAux
  rw [if_neg (by simp)]
  rfl

/-- The placeholder set actually excluded by `extract_model_codes`. -/
def placeholderTokens : List (List Char) :=
  [strA "Unknown", strA "Android Device", strA "K"]

/-- C6 (amended).  When the parsed model token is one of the three exact
placeholders `Unknown`, `Android Device`, `K`, no candidates are derived;
otherwise the candidates are the token itself first, then its despaced
variant (when it contains a space), its uppercased and lowercased
variants, de-duplicated preserving first occurrence.  The exclusion is
case-sensitive and applies only to the primary token: case *variants* of a
non-placeholder token are not re-checked, so a parsed token `k` still
offers `K` as a candidate (the original claim's "K is never offered" is
therefore false). -/
theorem candidate_tokens_amended (ua : List Char) :
    ((uaParse ua).model_code ∈ placeholderTokens → extractModelCodes ua = []) ∧
    ((uaParse ua).model_code ∉ placeholderTokens →
      extractModelCodes ua =
        dedupFirst
          ([(uaParse ua).model_code] ++
            (if (uaParse ua).model_code.contains ' ' then
              [(uaParse ua).model_code.filter (fun c => c ≠ ' ')]
             else []) ++
            [ucStr (uaParse ua).model_code, lcStr (uaParse ua).model_code]) ∧
      (extractModelCodes ua).head? = some (uaParse ua).model_code) := by
  constructor
  · intro hmem
    unfold extractModelCodes
    dsimp only
    rw [if_neg]
    · rfl
    · intro hcond
      obtain ⟨_, hu, ha, hk⟩ := hcond
      simp only [placeholderTokens, List.mem_cons, List.not_mem_nil, or_false] at hmem
      rcases hmem with h | h | h
      · exact hu h
      · exact ha h
      · exact hk h
  · intro hnmem
    have hcond : (uaParse ua).model_code ≠ [] ∧
        (uaParse ua).model_code ≠ strA "Unknown" ∧
        (uaParse ua).model_code ≠ strA "Android Device" ∧
        (uaParse ua).model_code ≠ strA "K" := by
      refine ⟨uaParse_model_ne_nil ua, ?_, ?_, ?_⟩ <;>
        · intro h
          exact hnmem (by rw [h]; decide)
    constructor
    · unfold extractModelCodes
      dsimp only
      rw [if_pos hcond]
    · unfold extractModelCodes
      dsimp only
      rw [if_pos hcond]
      exact dedupFirst_head _ _

/-- Witness for the amended C6 on the Samsung UA: the first candidate is
the model token itself. -/
theorem candidate_tokens_amended_witness :
    (extractModelCodes (strA "Mozilla/5.0 (Linux; Android 14; SM-S911B) AppleWebKit/537.36 (KHTML, like Gecko) Chrome/120.0.0.0 Safari/537.36")).head? =
      some (uaParse (strA "Mozilla/5.0 (Linux; Android 14; SM-S911B) AppleWebKit/537.36 (KHTML, like Gecko) Chrome/120.0.0.0 Safari/537.36")).model_code :=
  ((candidate_tokens_amended _).2 (by decide)).2

/-- Counterexample to C6 as stated: for the UA
`"Mozilla/5.0 (Linux; Android 14; k Build/ABC1)"` the parser extracts the
lowercase model token `k` (the placeholder comparison `== 'K'` is
case-sensitive), and its uppercase variant `K` *is* offered as a catalog
candidate. -/
theorem candidate_tokens_counterexample :
    extractModelCodes (strA "Mozilla/5.0 (Linux; Android 14; k Build/ABC1)") =
      [strA "k", strA "K"] ∧
    strA "K" ∈ extractModelCodes (strA "Mozilla/5.0 (Linux; Android 14; k Build/ABC1)") := by
  constructor
  · decide
  · decide

/-! ## Catalog Matcher (`DeviceDatabase`) -/

/-- One row of the devices CSV (`Brand`, `Model_Code`, `Marketing_Name`),
already split into fields (CSV parsing is excluded glue per the spec). -/
structure DeviceRow where
  brand : List Char
  model_code : List Char
  marketing_name : List Char

/-- `DeviceInfo` dataclass of `device_db.py`. -/
structure DeviceInfo where
  brand : List Char
  model_code : List Char
  marketing_name : List Char
  price_idr : Nat
  year : Nat
deriving DecidableEq, Repr

/-- The `DeviceInfo` built by `_load_devices` for one row
(`marketing_name or model_code` falls back to the code when the name is
empty; prices are filled in later, `0` at load). -/
def mkDeviceInfo (brand code name : List Char) : DeviceInfo :=
  { brand := brand, model_code := code,
    marketing_name := if name = [] then code else name,
    price_idr := 0, year := 2025 }

/-- The `devices` dict, modelled as a last-write-first association list. -/
def DeviceMap : Type := List (List Char × DeviceInfo)

/-- Python dict lookup: the most recent binding wins. -/
def dlookup (m : DeviceMap) (k : List Char) : Option DeviceInfo :=
  (List.find? (fun e => e.1 = k) m).map (fun e => e.2)

/-- One iteration of the `_load_devices` loop: strip the three fields,
skip the row when the model code is empty, otherwise bind the upper-case,
lower-case and as-given keys to the same entry (assignment order in the
source: upper, lower, as-given — so the as-given binding is most
recent). -/
def loadRow (m : DeviceMap) (row : DeviceRow) : DeviceMap :=
  let code := pyStrip row.model_code
  if code = [] then m
  else
    let info := mkDeviceInfo (pyStrip row.brand) code (pyStrip row.marketing_name)
    (code, info) :: (lcStr code, info) :: (ucStr code, info) :: m

/-- `DeviceDatabase._load_devices` over the parsed CSV rows. -/
def loadDevices (rows : List DeviceRow) : DeviceMap :=
  rows.foldl loadRow []

/-- `DeviceDatabase.find_device`: empty token → absent; otherwise try the
token as given, then uppercased, then lowercased; first hit wins; no other
lookup is performed. -/
def findDevice (m : DeviceMap) (code : List Char) : Option DeviceInfo :=
  if code = [] then none
  else
    match dlookup m code with
    | some d => some d
    | none =>
        match dlookup m (ucStr code) with
        | some d => some d
        | none => dlookup m (lcStr code)

/-! ### Character casing facts (ASCII model of `str.upper`/`str.lower`) -/

theorem char_toNat_inj {a b : Char} (h : a.toNat = b.toNat) : a = b := by
  have ha := Char.ofNat_toNat a
  rw [h, Char.ofNat_toNat] at ha
  exact ha.symm

theorem toNat_ofNat_valid {n : Nat} (h : n.isValidChar) :
    (Char.ofNat n).toNat = n := by
  unfold Char.ofNat
  rw [dif_pos h]
  rfl

theorem toNat_toUpper (c : Char) :
    (Char.toUpper c).toNat =
      if 97 ≤ c.toNat ∧ c.toNat ≤ 122 then c.toNat - 32 else c.toNat := by
  unfold Char.toUpper
  dsimp only
  split
  · rename_i h
    exact toNat_ofNat_valid (Or.inl (by omega))
  · rfl

theorem toNat_toLower (c : Char) :
    (Char.toLower c).toNat =
      if 65 ≤ c.toNat ∧ c.toNat ≤ 90 then c.toNat + 32 else c.toNat := by
  unfold Char.toLower
  dsimp only
  split
  · rename_i h
    exact toNat_ofNat_valid (Or.inl (by omega))
  · rfl

/-- For an upper/lower letter pair, `toUpper x` hits the upper letter
exactly when `toLower x` hits the lower one (both mean `x` is one of the
two letters). -/
theorem charIff_letter {u lo : Char} (h1 : 65 ≤ u.toNat) (h2 : u.toNat ≤ 90)
    (h3 : lo.toNat = u.toNat + 32) (x : Char) :
    (Char.toUpper x = u ↔ Char.toLower x = lo) := by
  constructor
  · intro h
    apply char_toNat_inj
    have hx := congrArg Char.toNat h
    rw [toNat_toUpper] at hx
    rw [toNat_toLower]
    split at hx <;> split <;> omega
  · intro h
    apply char_toNat_inj
    have hx := congrArg Char.toNat h
    rw [toNat_toLower] at hx
    rw [toNat_toUpper]
    split at hx <;> split <;> omega

/-- A character outside both letter ranges is a fixed point of the case
maps, and nothing else maps to it. -/
theorem charIff_nonletter {d : Char}
    (h : d.toNat < 65 ∨ (90 < d.toNat ∧ d.toNat < 97) ∨ 122 < d.toNat)
    (x : Char) : (Char.toUpper x = d ↔ Char.toLower x = d) := by
  constructor
  · intro hx
    apply char_toNat_inj
    have he := congrArg Char.toNat hx
    rw [toNat_toUpper] at he
    rw [toNat_toLower]
    split at he <;> split <;> omega
  · intro hx
    apply char_toNat_inj
    have he := congrArg Char.toNat hx
    rw [toNat_toLower] at he
    rw [toNat_toUpper]
    split at he <;> split <;> omega

/-- No character uppercases to a lowercase letter. -/
theorem toUpper_ne_lower {d : Char} (h1 : 97 ≤ d.toNat) (h2 : d.toNat ≤ 122)
    (x : Char) : Char.toUpper x ≠ d := by
  intro hx
  have he := congrArg Char.toNat hx
  rw [toNat_toUpper] at he
  split at he <;> omega

/-- No character lowercases to an uppercase letter. -/
theorem toLower_ne_upper {d : Char} (h1 : 65 ≤ d.toNat) (h2 : d.toNat ≤ 90)
    (x : Char) : Char.toLower x ≠ d := by
  intro hx
  have he := congrArg Char.toNat hx
  rw [toNat_toLower] at he
  split at he <;> omega

/-- Pointwise characterisation: `ucStr c' = us ↔ lcStr c' = los` when the
two target strings are matched upper/lower images character by
character. -/
theorem ucStr_eq_iff_lcStr_eq {us los : List Char}
    (h : List.Forall₂ (fun u lo => ∀ x, (Char.toUpper x = u ↔ Char.toLower x = lo))
      us los) :
    ∀ c', (ucStr c' = us ↔ lcStr c' = los) := by
  induction h with
  | nil =>
    intro c'
    cases c' <;> simp [ucStr, lcStr]
  | cons hx hrest ih =>
    intro c'
    cases c' with
    | nil => simp [ucStr, lcStr]
    | cons a t =>
      simp only [ucStr, lcStr, List.map_cons, List.cons.injEq]
      constructor
      · intro ⟨hh, ht⟩
        exact ⟨(hx a).mp hh, (ih t).mp ht⟩
      · intro ⟨hh, ht⟩
        exact ⟨(hx a).mpr hh, (ih t).mpr ht⟩

/-- The catalog key pair of the claim. -/
def smU : List Char := strA "SM-S911B"

def smL : List Char := strA "sm-s911b"

theorem ucStr_eq_smU_iff (c' : List Char) : ucStr c' = smU ↔ lcStr c' = smL := by
  refine ucStr_eq_iff_lcStr_eq ?_ c'
  refine List.Forall₂.cons (charIff_letter (by decide) (by decide) (by decide)) ?_
  refine List.Forall₂.cons (charIff_letter (by decide) (by decide) (by decide)) ?_
  refine List.Forall₂.cons (charIff_nonletter (by decide)) ?_
  refine List.Forall₂.cons (charIff_letter (by decide) (by decide) (by decide)) ?_
  refine List.Forall₂.cons (charIff_nonletter (by decide)) ?_
  refine List.Forall₂.cons (charIff_nonletter (by decide)) ?_
  refine List.Forall₂.cons (charIff_nonletter (by decide)) ?_
  refine List.Forall₂.cons (charIff_letter (by decide) (by decide) (by decide)) ?_
  exact List.Forall₂.nil

theorem ucStr_ne_smL (c' : List Char) : ucStr c' ≠ smL := by
  cases c' with
  | nil => decide
  | cons a t =>
    intro h
    have hh : Char.toUpper a = 's' := by
      have hhead := congrArg List.head? h
      simp only [ucStr, List.map_cons, List.head?_cons] at hhead
      rw [show smL.head? = some 's' from rfl, Option.some.injEq] at hhead
      exact hhead
    exact toUpper_ne_lower (by decide) (by decide) a hh

theorem lcStr_ne_smU (c' : List Char) : lcStr c' ≠ smU := by
  cases c' with
  | nil => decide
  | cons a t =>
    intro h
    have hh : Char.toLower a = 'S' := by
      have hhead := congrArg List.head? h
      simp only [lcStr, List.map_cons, List.head?_cons] at hhead
      rw [show smU.head? = some 'S' from rfl, Option.some.injEq] at hhead
      exact hhead
    exact toLower_ne_upper (by decide) (by decide) a hh

/-! ### Device-map lemmas -/

theorem dlookup_cons (a : List Char) (v : DeviceInfo) (m : DeviceMap)
    (k : List Char) :
    dlookup ((a, v) :: m) k = if a = k then some v else dlookup m k := by
  unfold dlookup
  rw [List.find?_cons]
  by_cases hak : a = k
  · simp [hak]
  · simp [hak]

/-- Keys bound by `loadRow` keep the `smU`/`smL` lookups equal. -/
theorem loadRow_preserves_sm {m : DeviceMap} {row : DeviceRow}
    (h : dlookup m smU = dlookup m smL) :
    dlookup (loadRow m row) smU = dlookup (loadRow m row) smL := by
  unfold loadRow
  dsimp only
  split
  · exact h
  · set c := pyStrip row.model_code with hc
    set i := mkDeviceInfo (pyStrip row.brand) c (pyStrip row.marketing_name) with hi
    by_cases hqual : ucStr c = smU
    · have hlow : lcStr c = smL := (ucStr_eq_smU_iff c).mp hqual
      rw [dlookup_cons, dlookup_cons, dlookup_cons,
        dlookup_cons, dlookup_cons, dlookup_cons]
      by_cases hcU : c = smU
      · rw [if_pos hcU]
        by_cases hcL : c = smL
        · rw [if_pos hcL]
        · rw [if_neg hcL, if_pos hlow]
      · rw [if_neg hcU, if_neg (by rw [hlow]; decide), if_pos hqual]
        by_cases hcL : c = smL
        · rw [if_pos hcL]
        · rw [if_neg hcL, if_pos hlow]
    · have hlow : lcStr c ≠ smL := fun hl => hqual ((ucStr_eq_smU_iff c).mpr hl)
      have hcU : c ≠ smU := by
        intro he
        apply hqual
        rw [he]
        decide
      have hcL : c ≠ smL := by
        intro he
        apply hqual
        rw [he]
        decide
      rw [dlookup_cons, dlookup_cons, dlookup_cons,
        dlookup_cons, dlookup_cons, dlookup_cons,
        if_neg hcU, if_neg hcL, if_neg (lcStr_ne_smU c), if_neg hlow,
        if_neg hqual, if_neg (ucStr_ne_smL c)]
      exact h

theorem foldl_preserves_sm (rows : List DeviceRow) :
    ∀ m : DeviceMap, dlookup m smU = dlookup m smL →
      dlookup (rows.foldl loadRow m) smU = dlookup (rows.foldl loadRow m) smL := by
  induction rows with
  | nil => intro m h; exact h
  | cons r rs ih =>
    intro m h
    exact ih (loadRow m r) (loadRow_preserves_sm h)

/-- `loadRow` never removes a binding. -/
theorem loadRow_mono {m : DeviceMap} {row : DeviceRow} {k : List Char}
    (h : dlookup m k ≠ none) : dlookup (loadRow m row) k ≠ none := by
  unfold loadRow
  dsimp only
  split
  · exact h
  · rw [dlookup_cons, dlookup_cons, dlookup_cons]
    split
    · exact Option.some_ne_none _
    · split
      · exact Option.some_ne_none _
      · split
        · exact Option.some_ne_none _
        · exact h

theorem foldl_mono (rows : List DeviceRow) :
    ∀ m : DeviceMap, ∀ k, dlookup m k ≠ none →
      dlookup (rows.foldl loadRow m) k ≠ none := by
  induction rows with
  | nil => intro m k h; exact h
  | cons r rs ih =>
    intro m k h
    exact ih (loadRow m r) k (loadRow_mono h)

/-- A row whose stripped model code is `SM-S911B` makes the `smU` key
present. -/
theorem smU_present (rows : List DeviceRow) :
    ∀ m : DeviceMap,
      (∃ row ∈ rows, pyStrip row.model_code = smU) ∨ dlookup m smU ≠ none →
      dlookup (rows.foldl loadRow m) smU ≠ none := by
  induction rows with
  | nil =>
    intro m h
    rcases h with ⟨_, hmem, _⟩ | h
    · cases hmem
    · exact h
  | cons r rs ih =>
    intro m h
    rcases h with ⟨row, hmem, hcode⟩ | h
    · rcases List.mem_cons.mp hmem with rfl | hmem'
      · refine ih (loadRow m row) (Or.inr ?_)
        unfold loadRow
        rw [if_neg (by rw [hcode]; decide)]
        dsimp only
        rw [dlookup_cons, hcode, if_pos rfl]
        exact Option.some_ne_none _
      · exact ih (loadRow m r) (Or.inl ⟨row, hmem', hcode⟩)
    · exact ih (loadRow m r) (Or.inr (loadRow_mono h))

/-- Every key of the loaded map is a case variant of some row's stripped
model code. -/
theorem dlookup_key_origin (rows : List DeviceRow) :
    ∀ (m : DeviceMap) (k : List Char),
      dlookup (rows.foldl loadRow m) k ≠ none →
      dlookup m k ≠ none ∨
        ∃ row ∈ rows, pyStrip row.model_code ≠ [] ∧
          (k = pyStrip row.model_code ∨ k = ucStr (pyStrip row.model_code) ∨
           k = lcStr (pyStrip row.model_code)) := by
  induction rows with
  | nil => intro m k h; exact Or.inl h
  | cons r rs ih =>
    intro m k h
    rcases ih (loadRow m r) k h with hacc | ⟨row, hmem, hrow⟩
    · unfold loadRow at hacc
      dsimp only at hacc
      split at hacc
      · exact Or.inl hacc
      · rename_i hne
        rw [dlookup_cons, dlookup_cons, dlookup_cons] at hacc
        by_cases h1 : pyStrip r.model_code = k
        · exact Or.inr ⟨r, List.mem_cons_self r rs, hne, Or.inl h1.symm⟩
        · rw [if_neg h1] at hacc
          by_cases h2 : lcStr (pyStrip r.model_code) = k
          · exact Or.inr ⟨r, List.mem_cons_self r rs, hne, Or.inr (Or.inr h2.symm)⟩
          · rw [if_neg h2] at hacc
            by_cases h3 : ucStr (pyStrip r.model_code) = k
            · exact Or.inr ⟨r, List.mem_cons_self r rs, hne, Or.inr (Or.inl h3.symm)⟩
            · rw [if_neg h3] at hacc
              exact Or.inl hacc
    · exact Or.inr ⟨row, List.mem_cons_of_mem r hmem, hrow⟩

/-! ### C4: exact catalog lookup -/

/-- C4.  `find_device` tries the token as given, then uppercased, then
lowercased, against the key index, first hit winning, and performs no other
lookup: (i) an as-given hit is returned; (ii) on an as-given miss an
uppercase hit is returned; (iii) on both misses the result is exactly the
lowercase lookup (absent if that also misses); (iv) when the catalog
contains the model code `SM-S911B`, looking up `SM-S911B` and `sm-s911b`
returns the same present entry; (v) a returned entry always comes from a
catalog row whose model code matches the token under some case variant —
never from approximate matching. -/
theorem findExact_characterisation (rows : List DeviceRow) :
    (∀ tok d, tok ≠ [] → dlookup (loadDevices rows) tok = some d →
      findDevice (loadDevices rows) tok = some d) ∧
    (∀ tok d, tok ≠ [] → dlookup (loadDevices rows) tok = none →
      dlookup (loadDevices rows) (ucStr tok) = some d →
      findDevice (loadDevices rows) tok = some d) ∧
    (∀ tok, tok ≠ [] → dlookup (loadDevices rows) tok = none →
      dlookup (loadDevices rows) (ucStr tok) = none →
      findDevice (loadDevices rows) tok = dlookup (loadDevices rows) (lcStr tok)) ∧
    ((∃ row ∈ rows, pyStrip row.model_code = smU) →
      findDevice (loadDevices rows) smU = findDevice (loadDevices rows) smL ∧
      (findDevice (loadDevices rows) smU).isSome = true) ∧
    (∀ tok d, findDevice (loadDevices rows) tok = some d →
      ∃ row ∈ rows, pyStrip row.model_code ≠ [] ∧
        ∃ q, (q = tok ∨ q = ucStr tok ∨ q = lcStr tok) ∧
          (q = pyStrip row.model_code ∨ q = ucStr (pyStrip row.model_code) ∨
           q = lcStr (pyStrip row.model_code))) := by
  have korigin : ∀ (q : List Char), dlookup (loadDevices rows) q ≠ none →
      ∃ row ∈ rows, pyStrip row.model_code ≠ [] ∧
        (q = pyStrip row.model_code ∨ q = ucStr (pyStrip row.model_code) ∨
         q = lcStr (pyStrip row.model_code)) := by
    intro q hq
    rcases dlookup_key_origin rows [] q hq with hbase | hrow
    · exact absurd rfl hbase
    · exact hrow
  refine ⟨?_, ?_, ?_, ?_, ?_⟩
  · intro tok d htok hhit
    unfold findDevice
    rw [if_neg htok, hhit]
  · intro tok d htok hmiss hhit
    unfold findDevice
    rw [if_neg htok, hmiss, hhit]
  · intro tok htok hmiss1 hmiss2
    unfold findDevice
    rw [if_neg htok, hmiss1, hmiss2]
  · intro hex
    have hpres : dlookup (loadDevices rows) smU ≠ none :=
      smU_present rows [] (Or.inl hex)
    have heqv : dlookup (loadDevices rows) smU = dlookup (loadDevices rows) smL :=
      foldl_preserves_sm rows [] rfl
    cases hu : dlookup (loadDevices rows) smU with
    | none => exact absurd hu hpres
    | some d =>
      have hl : dlookup (loadDevices rows) smL = some d := by
        rw [← heqv, hu]
      constructor
      · unfold findDevice
        rw [if_neg (by decide), if_neg (by decide), hu, hl]
      · unfold findDevice
        rw [if_neg (by decide), hu]
        rfl
  · intro tok d hfind
    unfold findDevice at hfind
    split at hfind
    · cases hfind
    · split at hfind
      · rename_i d' hhit
        obtain ⟨row, hmem, hne, hvar⟩ := korigin tok (by rw [hhit]; exact Option.some_ne_none _)
        exact ⟨row, hmem, hne, tok, Or.inl rfl, hvar⟩
      · split at hfind
        · rename_i d' hhit
          obtain ⟨row, hmem, hne, hvar⟩ :=
            korigin (ucStr tok) (by rw [hhit]; exact Option.some_ne_none _)
          exact ⟨row, hmem, hne, ucStr tok, Or.inr (Or.inl rfl), hvar⟩
        · obtain ⟨row, hmem, hne, hvar⟩ :=
            korigin (lcStr tok) (by rw [hfind]; exact Option.some_ne_none _)
          exact ⟨row, hmem, hne, lcStr tok, Or.inr (Or.inr rfl), hvar⟩

/-- Witness: a one-row catalog containing `SM-S911B`; both case variants of
the lookup return the same present entry. -/
theorem findExact_characterisation_witness :
    findDevice (loadDevices [⟨strA "Samsung", strA "SM-S911B", strA "Galaxy S23"⟩]) smU =
      findDevice (loadDevices [⟨strA "Samsung", strA "SM-S911B", strA "Galaxy S23"⟩]) smL ∧
    (findDevice (loadDevices [⟨strA "Samsung", strA "SM-S911B", strA "Galaxy S23"⟩]) smU).isSome = true :=
  (findExact_characterisation [⟨strA "Samsung", strA "SM-S911B", strA "Galaxy S23"⟩]).2.2.2.1
    ⟨⟨strA "Samsung", strA "SM-S911B", strA "Galaxy S23"⟩,
      List.mem_singleton.mpr rfl, by decide⟩

end WifiDevice
